import Mathlib

/-!
Shallow embedding of the Instagram analytics pipeline of src/app.py:
cookie parsing and session setup (InstagramScraper._setup_session), the
two fetch operations (get_user_profile, get_user_posts), record
normalization of raw feed items, and the metric computations
(calculate_engagement_rate, generate_time_series_data, the nlargest
rankings of display_posts_analytics and the groupby idxmax of
display_insights).  Python numbers are embedded as Int and Rat (floats
as exact rationals), Python strings as Lean strings handled through
explicit character lists, dictionaries as insertion-ordered association
lists, and absent JSON fields as Option values.
-/

/-- Python string slice s[:n] on code points, as in caption_text[:100]. -/
def strTake (n : Nat) (s : String) : String := String.mk (s.data.take n)

/-- Python str.split on a one-character separator, over character lists. -/
def splitChar (c : Char) : List Char → List (List Char)
  | [] => [[]]
  | x :: xs =>
      match splitChar c xs with
      | [] => if x = c then [[], []] else [[x]]
      | g :: gs => if x = c then [] :: g :: gs else (x :: g) :: gs

/-- Whitespace test of Python str.strip, ASCII range. -/
def isPySpace (c : Char) : Bool :=
  c == ' ' || c == '\t' || c == '\n' || c == '\r' || c == '\x0b' || c == '\x0c'

/-- Python str.strip on a character list. -/
def trimChars (l : List Char) : List Char :=
  ((l.dropWhile isPySpace).reverse.dropWhile isPySpace).reverse

/-- Python split at the first equals sign, the split with maxsplit one. -/
def splitFirstEq : List Char → Option (List Char × List Char)
  | [] => none
  | x :: xs =>
      if x = '=' then some ([], xs)
      else
        match splitFirstEq xs with
        | none => none
        | some kv => some (x :: kv.1, kv.2)

/-- Python dict item assignment on an insertion-ordered association list:
replace the value at an existing key in place, else append the pair. -/
def dictInsert (k v : String) : List (String × String) → List (String × String)
  | [] => [(k, v)]
  | p :: ps => if p.1 = k then (k, v) :: ps else p :: dictInsert k v ps

/-- One iteration of the cookie loop of InstagramScraper._setup_session:
an entry without an equals sign is skipped, any other entry is stripped
and split at its first equals sign. -/
def cookieStep (d : List (String × String)) (item : List Char) : List (String × String) :=
  if item.contains '=' then
    match splitFirstEq (trimChars item) with
    | some kv => dictInsert (String.mk kv.1) (String.mk kv.2) d
    | none => d
  else d

/-- The cookie-string branch of InstagramScraper._setup_session, lines 83
to 89 of src/app.py. -/
def parse_cookie_string (s : String) : List (String × String) :=
  (splitChar ';' s.data).foldl cookieStep []

/-- The isinstance dispatch of _setup_session: a raw string is parsed, an
already built mapping passes through unchanged. -/
def coerceCookies : Sum String (List (String × String)) → List (String × String)
  | Sum.inl s => parse_cookie_string s
  | Sum.inr d => d

/-- The cookie install loop of _setup_session, lines 91 to 92: one
session.cookies.set per pair, on top of whatever the session jar already
holds; nothing clears the jar first. -/
def setup_session_cookies (jar : List (String × String)) (cookies : List (String × String)) : List (String × String) :=
  cookies.foldl (fun j kv => dictInsert kv.1 kv.2 j) jar

/-- First value bound to a key in an association list. -/
def lookupA (k : String) : List (String × String) → Option String
  | [] => none
  | p :: ps => if p.1 = k then some p.2 else lookupA k ps

/-- Left-biased choice on optional values. -/
def orO : Option String → Option String → Option String
  | some v, _ => some v
  | none, b => b

/-- Value of the last occurrence of a key in a cookie list. -/
def lastVal (k : String) (cookies : List (String × String)) : Option String :=
  lookupA k cookies.reverse

/-- A nested edge object carrying a count, as in edge_followed_by. -/
structure EdgeCount where
  count : Option Int := none
deriving DecidableEq

/-- Raw user object of the profile endpoint; every field may be absent. -/
structure RawUser where
  id : Option String := none
  username : Option String := none
  full_name : Option String := none
  biography : Option String := none
  edge_followed_by : Option EdgeCount := none
  edge_follow : Option EdgeCount := none
  edge_owner_to_timeline_media : Option EdgeCount := none
  profile_pic_url_hd : Option String := none
  is_verified : Option Bool := none
  is_business_account : Option Bool := none
  category_name : Option String := none
  external_url : Option String := none
  is_private : Option Bool := none
deriving DecidableEq

/-- The data wrapper of the profile response body. -/
structure UserWrap where
  user : Option RawUser := none
deriving DecidableEq

/-- Parsed JSON body of the profile endpoint. -/
structure ProfileBody where
  data : Option UserWrap := none
deriving DecidableEq

/-- Normalized profile record built by get_user_profile. -/
structure Profile where
  id : Option String
  username : String
  full_name : String
  bio : String
  followers : Int
  following : Int
  posts_count : Int
  profile_pic_url : String
  is_verified : Bool
  is_business : Bool
  category : String
  external_url : String
  is_private : Bool
deriving DecidableEq

/-- Field mapping of get_user_profile, lines 104 to 118 of src/app.py. -/
def mkProfile (username : String) (user : RawUser) : Profile :=
  { id := user.id
  , username := user.username.getD username
  , full_name := user.full_name.getD "N/A"
  , bio := user.biography.getD ""
  , followers := (user.edge_followed_by.getD {}).count.getD 0
  , following := (user.edge_follow.getD {}).count.getD 0
  , posts_count := (user.edge_owner_to_timeline_media.getD {}).count.getD 0
  , profile_pic_url := user.profile_pic_url_hd.getD ""
  , is_verified := user.is_verified.getD false
  , is_business := user.is_business_account.getD false
  , category := user.category_name.getD "Personal"
  , external_url := user.external_url.getD ""
  , is_private := user.is_private.getD false }

/-- Caption node of a raw feed item. -/
structure RawCaption where
  text : Option String := none
deriving DecidableEq

/-- One resolution candidate of image_versions2. -/
structure RawCandidate where
  url : Option String := none
deriving DecidableEq

/-- image_versions2 object of a raw feed item. -/
structure RawImageVersions where
  candidates : Option (List RawCandidate) := none
deriving DecidableEq

/-- Raw feed item of the feed endpoint; every field may be absent. -/
structure RawItem where
  pk : Option Int := none
  code : Option String := none
  taken_at : Option Int := none
  media_type : Option Int := none
  like_count : Option Int := none
  comment_count : Option Int := none
  caption : Option RawCaption := none
  image_versions2 : Option RawImageVersions := none
  view_count : Option Int := none
deriving DecidableEq

/-- Parsed JSON body of the feed endpoint. -/
structure PostsBody where
  items : Option (List RawItem) := none
deriving DecidableEq

/-- Normalized post record, the post_data dictionary of get_user_posts.
The timestamp field keeps the raw epoch seconds of taken_at. -/
structure Post where
  post_id : Option Int
  shortcode : Option String
  timestamp : Int
  type : String
  likes : Int
  comments : Int
  caption : String
  display_url : String
  thumbnail_url : String
  is_video : Bool
  video_view_count : Int
deriving DecidableEq

/-- Normalization of one raw feed item, lines 143 to 161 of src/app.py.
Every absent field resolves to the coded default; the stored caption is
the slice caption_text[:100]. -/
def normalizeItem (item : RawItem) : Post :=
  let caption_text : String :=
    match item.caption with
    | none => ""
    | some cnode => cnode.text.getD ""
  let image_candidates : List RawCandidate :=
    (item.image_versions2.getD {}).candidates.getD [{}]
  let display_url : String :=
    match image_candidates with
    | [] => ""
    | cand :: _ => cand.url.getD ""
  { post_id := item.pk
  , shortcode := item.code
  , timestamp := item.taken_at.getD 0
  , type := if item.media_type = some 2 then "video" else "photo"
  , likes := item.like_count.getD 0
  , comments := item.comment_count.getD 0
  , caption := strTake 100 caption_text
  , display_url := display_url
  , thumbnail_url := display_url
  , is_video := if item.media_type = some 2 then true else false
  , video_view_count := if item.media_type = some 2 then item.view_count.getD 0 else 0 }

/-- The normalization loop of get_user_posts: items[:max_posts] mapped
through normalizeItem, input order preserved. -/
def normalizeBatch (items : List RawItem) (max_posts : Nat) : List Post :=
  (items.take max_posts).map normalizeItem

/-- Outcome of one HTTP GET as the code observes it: either a response
carrying a status code and a JSON parse outcome, or a raised transport
exception. -/
inductive HttpFetch (β : Type) where
  | success (status : Int) (body : Except String β)
  | failure (message : String)

/-- A remote-call failure in the sense of the spec: transport exception,
JSON parse error, or a status outside the 2xx range. -/
def isRemoteFailure {β : Type} : HttpFetch β → Prop
  | HttpFetch.failure _ => True
  | HttpFetch.success status body => status < 200 ∨ 300 ≤ status ∨ ∃ e, body = Except.error e

/-- Result of get_user_profile: the optional profile plus the reported
error messages. -/
structure ProfileResult where
  profile : Option Profile
  errors : List String
deriving DecidableEq

/-- Result of get_user_posts: posts, reported error messages, and the
number of network requests issued. -/
structure PostsResult where
  posts : List Post
  errors : List String
  webRequests : Nat
deriving DecidableEq

/-- InstagramScraper.get_user_profile, lines 94 to 125 of src/app.py.
The try and except structure of the source is the explicit case split on
the fetch outcome; every branch returns instead of raising. -/
def get_user_profile (username : String) (resp : HttpFetch ProfileBody) : ProfileResult :=
  match resp with
  | HttpFetch.failure e =>
      { profile := none, errors := ["Error fetching profile: " ++ e] }
  | HttpFetch.success status body =>
      if status = 200 then
        match body with
        | Except.error e =>
            { profile := none, errors := ["Error fetching profile: " ++ e] }
        | Except.ok pb =>
            { profile := some (mkProfile username ((pb.data.getD {}).user.getD {}))
            , errors := [] }
      else
        { profile := none, errors := ["Failed to fetch profile."] }

/-- InstagramScraper.get_user_posts, lines 127 to 171 of src/app.py.  A
falsy user id returns before any request is issued; webRequests counts
the GET calls actually made. -/
def get_user_posts (user_id : Option String) (resp : HttpFetch PostsBody) (max_posts : Nat) : PostsResult :=
  if user_id = none ∨ user_id = some "" then
    { posts := [], errors := ["User ID not found. Cannot fetch posts."], webRequests := 0 }
  else
    match resp with
    | HttpFetch.failure e =>
        { posts := [], errors := ["Error fetching posts: " ++ e], webRequests := 1 }
    | HttpFetch.success status body =>
        if status = 200 then
          match body with
          | Except.error e =>
              { posts := [], errors := ["Error fetching posts: " ++ e], webRequests := 1 }
          | Except.ok pb =>
              { posts := normalizeBatch (pb.items.getD []) max_posts
              , errors := []
              , webRequests := 1 }
        else
          { posts := []
          , errors := ["Failed to fetch posts.", "The cookies may be invalid or the private user is not followed."]
          , webRequests := 1 }

/-- Floor of a rational, computed from numerator and denominator. -/
def ratFloor (q : Rat) : Int := Int.fdiv q.num q.den

/-- Round half to even on a rational, the rounding used by Python round. -/
def roundHalfEven (x : Rat) : Int :=
  let n := ratFloor x
  let frac := x - (n : Rat)
  if frac < 1 / 2 then n
  else if 1 / 2 < frac then n + 1
  else if n % 2 = 0 then n else n + 1

/-- Python round(x, 2) on exact rationals. -/
def pyRound2 (x : Rat) : Rat := (roundHalfEven (x * 100) : Rat) / 100

/-- calculate_engagement_rate, lines 173 to 177 of src/app.py, with
Python floats embedded as exact rationals. -/
def calculate_engagement_rate (likes comments followers : Rat) : Rat :=
  if 0 < followers then pyRound2 (((likes + comments) / followers) * 100) else 0

/-- Stable insert for a descending sort: the new element goes before the
first element whose key is not larger. -/
def insertDesc {α : Type} (key : α → Int) (x : α) : List α → List α
  | [] => [x]
  | y :: ys => if key y ≤ key x then x :: y :: ys else y :: insertDesc key x ys

/-- Stable descending insertion sort by an integer key. -/
def sortDesc {α : Type} (key : α → Int) : List α → List α
  | [] => []
  | x :: xs => insertDesc key x (sortDesc key xs)

/-- Remove the first occurrence of a maximal-key element; a later element
replaces the current maximum only when its key is strictly larger. -/
def extractFirstMax {α : Type} (key : α → Int) : List α → Option (α × List α)
  | [] => none
  | x :: xs =>
      match extractFirstMax key xs with
      | none => some (x, [])
      | some mr => if key x < key mr.1 then some (mr.1, x :: mr.2) else some (x, xs)

/-- pandas DataFrame.nlargest with keep equal to first: repeatedly take
the earliest element of maximal key. -/
def nlargest {α : Type} (key : α → Int) : Nat → List α → List α
  | 0, _ => []
  | n + 1, l =>
      match extractFirstMax key l with
      | none => []
      | some mr => mr.1 :: nlargest key n mr.2

/-- The most liked ranking of display_posts_analytics, line 287 of
src/app.py: posts_df.nlargest(n, likes); the source instantiates n at 5. -/
def top_likes (n : Nat) (posts : List Post) : List Post :=
  nlargest (fun p => p.likes) n posts

/-- The most commented ranking of display_posts_analytics, line 293 of
src/app.py: posts_df.nlargest(n, comments). -/
def top_comments (n : Nat) (posts : List Post) : List Post :=
  nlargest (fun p => p.comments) n posts

/-- Modelled from the spec claim: the ranking the claim describes, the n
largest by engagement, likes plus comments, stable in input order.
Stated only for comparison with the rankings the code computes; no
engagement-keyed ranking exists in src/app.py. -/
def specTopByEngagement (n : Nat) (posts : List Post) : List Post :=
  (sortDesc (fun p => p.likes + p.comments) posts).take n

/-- Boolean strict order on Int used by the ascending sorts. -/
def intLtB (a b : Int) : Bool := decide (a < b)

/-- Lexicographic strict order on character lists by code point, the
comparison Python uses on strings. -/
def lexLtB : List Char → List Char → Bool
  | [], [] => false
  | [], _ :: _ => true
  | _ :: _, [] => false
  | x :: xs, y :: ys => if x < y then true else if x = y then lexLtB xs ys else false

/-- Boolean strict order on String used by the ascending sorts. -/
def strLtB (a b : String) : Bool := lexLtB a.data b.data

/-- Insert into an ascending list with respect to a boolean strict order. -/
def insertAscBy {α : Type} (lt : α → α → Bool) (x : α) : List α → List α
  | [] => [x]
  | y :: ys => if lt x y then x :: y :: ys else y :: insertAscBy lt x ys

/-- Ascending insertion sort, modelling the sorted group keys of a pandas
groupby. -/
def sortAscBy {α : Type} (lt : α → α → Bool) : List α → List α
  | [] => []
  | x :: xs => insertAscBy lt x (sortAscBy lt xs)

/-- Distinct values of a list in first-occurrence order, skipping values
already seen. -/
def dedupAux {α : Type} [DecidableEq α] (seen : List α) : List α → List α
  | [] => []
  | x :: xs => if x ∈ seen then dedupAux seen xs else x :: dedupAux (x :: seen) xs

/-- One row of the daily_stats frame of generate_time_series_data. -/
structure DailyStat where
  date : Int
  likes : Int
  comments : Int
  posts_count : Nat
deriving DecidableEq

/-- Calendar date of a post under a fixed date convention dateOf; models
the date portion timestamp.dt.date of the local datetime. -/
def postDate (dateOf : Int → Int) (p : Post) : Int := dateOf p.timestamp

/-- One aggregated row of the daily_stats frame: the likes and comments
sums over the posts of one date, and the count of posts of that date
carrying a non-null post id (the pandas count aggregation skips nulls). -/
def dailyRow (dateOf : Int → Int) (posts : List Post) (d : Int) : DailyStat :=
  { date := d
  , likes := ((posts.filter (fun p => postDate dateOf p == d)).map (fun p => p.likes)).sum
  , comments := ((posts.filter (fun p => postDate dateOf p == d)).map (fun p => p.comments)).sum
  , posts_count := (posts.filter (fun p => postDate dateOf p == d && p.post_id.isSome)).length }

/-- generate_time_series_data, lines 179 to 191 of src/app.py: group by
calendar date, sum likes and comments per group, count non-null post ids
per group, rows ordered by ascending date; the empty frame comes back
empty. -/
def generate_time_series_data (dateOf : Int → Int) (posts : List Post) : List DailyStat :=
  match posts with
  | [] => []
  | _ :: _ =>
      (sortAscBy intLtB (dedupAux [] (posts.map (postDate dateOf)))).map (dailyRow dateOf posts)

/-- Mean likes of the posts of one type, a pandas groupby mean, as an
exact rational. -/
def meanLikes (posts : List Post) (k : String) : Rat :=
  ((((posts.filter (fun p => p.type == k)).map (fun p => p.likes)).sum : Int) : Rat) /
    (((posts.filter (fun p => p.type == k)).length : Nat) : Rat)

/-- Sorted distinct type keys of a post batch, the groupby group keys. -/
def postKinds (posts : List Post) : List String :=
  sortAscBy strLtB (dedupAux [] (posts.map (fun p => p.type)))

/-- pandas Series.idxmax over key and value pairs: the first key whose
value attains the maximum; a later pair wins only by a strictly larger
value. -/
def idxmaxQ : List (String × Rat) → Option String
  | [] => none
  | kv :: rest => some ((rest.foldl (fun best p => if best.2 < p.2 then p else best) kv).1)

/-- best_type of display_insights, line 349 of src/app.py. -/
def best_type (posts : List Post) : Option String :=
  idxmaxQ ((postKinds posts).map (fun k => (k, meanLikes posts k)))

/-- Base record for concrete test posts. -/
def basePost : Post :=
  { post_id := some 1, shortcode := some "abc", timestamp := 0, type := "photo"
  , likes := 0, comments := 0, caption := "", display_url := "", thumbnail_url := ""
  , is_video := false, video_view_count := 0 }

/-- Concrete batch with engagements 30, 30 and 10 in input order, the
shape of the spec example, realised so that the likes order differs from
the engagement order. -/
def engBatch : List Post :=
  [ { basePost with likes := 1, comments := 29 }
  , { basePost with post_id := some 2, likes := 30 }
  , { basePost with post_id := some 3, likes := 10 } ]

/-- Concrete batch with like counts 30, 30 and 10 in input order. -/
def tieBatch : List Post :=
  [ { basePost with likes := 30 }
  , { basePost with post_id := some 2, likes := 30 }
  , { basePost with post_id := some 3, likes := 10 } ]

/-- A caption text of 101 characters, longer than the stored slice. -/
def longCaption : String := String.mk (List.replicate 101 'a')

/-- Raw item whose caption node holds the 101-character text. -/
def longItem : RawItem := { caption := some { text := some longCaption } }

/-- Caption node with a short text. -/
def hiCaption : RawCaption := { text := some "hi" }

/-- Raw item carrying the short caption node. -/
def hiItem : RawItem := { caption := some hiCaption }

/-- A post with an id, seven likes and three comments. -/
def solePost : Post := { basePost with likes := 7, comments := 3 }

/-- The daily row produced for a batch holding only solePost. -/
def soleStat : DailyStat := { date := 0, likes := 7, comments := 3, posts_count := 1 }

/-- A post without a post id, as a raw item missing pk produces. -/
def noIdPost : Post := { basePost with post_id := none, likes := 5, comments := 2 }

/-- An entry without an equals sign leaves the cookie mapping unchanged. -/
theorem cookieStep_no_eq (d : List (String × String)) (item : List Char)
    (h : item.contains '=' = false) : cookieStep d item = d := by
  unfold cookieStep
  rw [h]
  simp

/-- The cookie fold ignores entries without an equals sign, from any
starting mapping. -/
theorem foldl_cookieStep_filter :
    ∀ (items : List (List Char)) (d : List (String × String)),
      items.foldl cookieStep d = (items.filter (fun it => it.contains '=')).foldl cookieStep d := by
  intro items
  induction items with
  | nil => intro d; rfl
  | cons x xs ih =>
      intro d
      by_cases hx : x.contains '=' = true
      · simp only [List.foldl_cons, List.filter_cons, hx, if_pos]
        exact ih (cookieStep d x)
      · have hx2 : x.contains '=' = false := by
          cases h : x.contains '=' with
          | true => exact absurd h hx
          | false => rfl
        simp only [List.foldl_cons, List.filter_cons, hx2, cookieStep_no_eq d x hx2]
        exact ih d

/-- Claim C4: the credential parser trims each semicolon-separated entry,
splits it at its first equals sign, silently drops entries without an
equals sign, passes an existing mapping through unchanged, and maps the
empty string to the empty mapping; in particular the spec examples hold. -/
theorem cookie_parsing_spec :
    (∀ items : List (List Char),
        items.foldl cookieStep [] = (items.filter (fun it => it.contains '=')).foldl cookieStep [])
    ∧ (∀ d : List (String × String), coerceCookies (Sum.inr d) = d)
    ∧ parse_cookie_string "sessionid=A;malformed;csrftoken=B" = [("sessionid", "A"), ("csrftoken", "B")]
    ∧ parse_cookie_string "sessionid=A; csrftoken=B" = [("sessionid", "A"), ("csrftoken", "B")]
    ∧ parse_cookie_string "" = [] := by
  refine ⟨fun items => foldl_cookieStep_filter items [], fun d => rfl, ?_, ?_, ?_⟩
  · decide
  · decide
  · decide

/-- Claim C5: a null user id makes get_user_posts return the empty batch
at once, reporting an error and issuing zero network requests. -/
theorem posts_fetch_null_id_guard :
    ∀ (resp : HttpFetch PostsBody) (maxPosts : Nat),
      get_user_posts none resp maxPosts
        = { posts := [], errors := ["User ID not found. Cannot fetch posts."], webRequests := 0 } := by
  intro resp maxPosts
  rfl

/-- Looking a key up after a dict insert yields the inserted value at
that key and is unchanged elsewhere. -/
theorem lookupA_dictInsert (k2 k v : String) :
    ∀ d : List (String × String),
      lookupA k2 (dictInsert k v d) = if k2 = k then some v else lookupA k2 d := by
  intro d
  induction d with
  | nil =>
      by_cases h : k2 = k
      · subst h; simp [dictInsert, lookupA]
      · have h2 : ¬ k = k2 := fun hh => h hh.symm
        simp [dictInsert, lookupA, h, h2]
  | cons p ps ih =>
      by_cases hp : p.1 = k
      · by_cases h : k2 = k
        · subst h
          simp [dictInsert, hp, lookupA]
        · have hkk2 : ¬ k = k2 := fun hh => h hh.symm
          have hpk2 : ¬ p.1 = k2 := fun hh => h (hh.symm.trans hp)
          simp [dictInsert, hp, lookupA, h, hkk2, hpk2]
      · by_cases h3 : p.1 = k2
        · have h4 : ¬ k2 = k := fun hh => hp (h3.trans hh)
          simp [dictInsert, hp, lookupA, h3, h4]
        · simp [dictInsert, hp, lookupA, h3, ih]

/-- Looking up in an appended association list prefers the left part. -/
theorem lookupA_append (k : String) :
    ∀ l1 l2 : List (String × String), lookupA k (l1 ++ l2) = orO (lookupA k l1) (lookupA k l2) := by
  intro l1 l2
  induction l1 with
  | nil => simp [lookupA, orO]
  | cons p ps ih =>
      by_cases hp : p.1 = k
      · simp [lookupA, hp, orO]
      · simp [lookupA, hp, ih]

/-- Left choice with an empty right side changes nothing. -/
theorem orO_none_right (a : Option String) : orO a none = a := by
  cases a <;> rfl

/-- Left choice is associative. -/
theorem orO_assoc (a b c : Option String) : orO (orO a b) c = orO a (orO b c) := by
  cases a <;> rfl

/-- Installing a cookie list into a jar: each key ends bound to its last
value from the list if present, else to its prior value in the jar. -/
theorem lookupA_setup :
    ∀ (cookies : List (String × String)) (jar : List (String × String)) (k : String),
      lookupA k (setup_session_cookies jar cookies) = orO (lastVal k cookies) (lookupA k jar) := by
  intro cookies
  induction cookies with
  | nil => intro jar k; simp [setup_session_cookies, lastVal, lookupA, orO]
  | cons c cs ih =>
      intro jar k
      have hstep : setup_session_cookies jar (c :: cs)
          = setup_session_cookies (dictInsert c.1 c.2 jar) cs := rfl
      rw [hstep, ih]
      have hlast : lastVal k (c :: cs) = orO (lastVal k cs) (lookupA k [c]) := by
        simp only [lastVal, List.reverse_cons]
        exact lookupA_append k cs.reverse [c]
      rw [hlast, orO_assoc, lookupA_dictInsert]
      by_cases h : k = c.1
      · simp [lookupA, h, orO]
      · have h2 : ¬ c.1 = k := fun hh => h hh.symm
        simp [lookupA, h, h2, orO]

/-- Claim C7 counterexample: configuring the session with one cookie set
and then another does not leave exactly the second set installed; the
cookie of the first set survives. -/
theorem setup_session_not_replacing :
    setup_session_cookies (setup_session_cookies [] [("sessionid", "OLD")]) [("csrftoken", "NEW")]
      ≠ setup_session_cookies [] [("csrftoken", "NEW")] := by
  decide

/-- Claim C7 amended: a second configuration call overlays the new cookie
set on the prior jar: every key set by the second call holds its last
value from that call, and any other key keeps its value from the first
call; cookies present only in the first set remain installed. -/
theorem setup_session_overlay :
    (∀ (c1 c2 : List (String × String)) (k : String),
        lookupA k (setup_session_cookies (setup_session_cookies [] c1) c2)
          = orO (lastVal k c2) (lastVal k c1))
    ∧ setup_session_cookies (setup_session_cookies [] [("sessionid", "OLD")]) [("csrftoken", "NEW")]
        = [("sessionid", "OLD"), ("csrftoken", "NEW")] := by
  constructor
  · intro c1 c2 k
    rw [lookupA_setup, lookupA_setup]
    simp [lookupA, orO_none_right]
  · decide

/-- Claim C2: the engagement rate is the two-decimal rounding of the
percentage when followers are positive and zero otherwise, with the two
spec instances. -/
theorem engagement_rate_spec :
    (∀ likes comments followers : Int,
        (0 < followers →
          calculate_engagement_rate (likes : Rat) (comments : Rat) (followers : Rat)
            = pyRound2 ((((likes : Rat) + (comments : Rat)) / (followers : Rat)) * 100))
        ∧ (followers ≤ 0 →
          calculate_engagement_rate (likes : Rat) (comments : Rat) (followers : Rat) = 0))
    ∧ calculate_engagement_rate 10 5 100 = 15
    ∧ calculate_engagement_rate 10 5 0 = 0 := by
  refine ⟨fun likes comments followers => ⟨fun h => ?_, fun h => ?_⟩, ?_, ?_⟩
  · have hq : (0 : Rat) < (followers : Rat) := by exact_mod_cast h
    simp [calculate_engagement_rate, hq]
  · have hq : ¬ (0 : Rat) < (followers : Rat) := by
      have : (followers : Rat) ≤ 0 := by exact_mod_cast h
      exact not_lt.mpr this
    simp [calculate_engagement_rate, hq]
  · have h1 : (((10 : Rat) + 5) / 100) * 100 = 15 := by norm_num
    unfold calculate_engagement_rate
    rw [if_pos (by norm_num : (0 : Rat) < 100), h1]
    unfold pyRound2 roundHalfEven ratFloor
    norm_num [Rat.num_ofNat, Rat.den_ofNat]
  · unfold calculate_engagement_rate
    rw [if_neg (by norm_num : ¬ (0 : Rat) < 0)]

/-- Witness for claim C2 at likes 10, comments 5, followers 100. -/
theorem engagement_rate_spec_witness :
    calculate_engagement_rate ((10 : Int) : Rat) ((5 : Int) : Rat) ((100 : Int) : Rat)
      = pyRound2 (((((10 : Int) : Rat) + ((5 : Int) : Rat)) / ((100 : Int) : Rat)) * 100) :=
  (engagement_rate_spec.1 10 5 100).1 (by norm_num)

/-- A failing profile fetch yields no profile and a reported error. -/
theorem profile_fetch_fail (username : String) (rp : HttpFetch ProfileBody)
    (h : isRemoteFailure rp) :
    (get_user_profile username rp).profile = none ∧ (get_user_profile username rp).errors ≠ [] := by
  cases rp with
  | failure e => exact ⟨rfl, by simp [get_user_profile]⟩
  | success st body =>
      by_cases hst : st = 200
      · subst hst
        rcases h with h | h | ⟨e, he⟩
        · exact absurd h (by decide)
        · exact absurd h (by decide)
        · subst he
          exact ⟨rfl, by simp [get_user_profile]⟩
      · constructor
        · simp [get_user_profile, hst]
        · simp [get_user_profile, hst]

/-- A failing posts fetch yields an empty batch and a reported error. -/
theorem posts_fetch_fail (uid : String) (rq : HttpFetch PostsBody) (maxPosts : Nat)
    (h : isRemoteFailure rq) :
    (get_user_posts (some uid) rq maxPosts).posts = []
      ∧ (get_user_posts (some uid) rq maxPosts).errors ≠ [] := by
  by_cases hu : uid = ""
  · constructor
    · simp [get_user_posts, hu]
    · simp [get_user_posts, hu]
  · cases rq with
    | failure e =>
        constructor
        · simp [get_user_posts, hu]
        · simp [get_user_posts, hu]
    | success st body =>
        by_cases hst : st = 200
        · subst hst
          rcases h with h | h | ⟨e, he⟩
          · exact absurd h (by decide)
          · exact absurd h (by decide)
          · subst he
            constructor
            · simp [get_user_posts, hu]
            · simp [get_user_posts, hu]
        · constructor
          · simp [get_user_posts, hu, hst]
          · simp [get_user_posts, hu, hst]

/-- Claim C3: every remote-call failure, a transport exception, a JSON
parse error or a status outside 2xx, makes the profile fetch return null
and the posts fetch return an empty sequence, each reporting an error;
the embedding is total, so no exception escapes the boundary. -/
theorem remote_failures_contained :
    ∀ (rp : HttpFetch ProfileBody) (rq : HttpFetch PostsBody)
      (username uid : String) (maxPosts : Nat),
      isRemoteFailure rp → isRemoteFailure rq →
        (get_user_profile username rp).profile = none
        ∧ (get_user_profile username rp).errors ≠ []
        ∧ (get_user_posts (some uid) rq maxPosts).posts = []
        ∧ (get_user_posts (some uid) rq maxPosts).errors ≠ [] := by
  intro rp rq username uid maxPosts hp hq
  obtain ⟨h1, h2⟩ := profile_fetch_fail username rp hp
  obtain ⟨h3, h4⟩ := posts_fetch_fail uid rq maxPosts hq
  exact ⟨h1, h2, h3, h4⟩

/-- Witness for claim C3: a transport failure on the profile call and a
404 status on the feed call. -/
theorem remote_failures_contained_witness :
    (get_user_profile "alice" (HttpFetch.failure "timeout")).profile = none
    ∧ (get_user_profile "alice" (HttpFetch.failure "timeout")).errors ≠ []
    ∧ (get_user_posts (some "42") (HttpFetch.success 404 (Except.ok {})) 50).posts = []
    ∧ (get_user_posts (some "42") (HttpFetch.success 404 (Except.ok {})) 50).errors ≠ [] :=
  remote_failures_contained (HttpFetch.failure "timeout") (HttpFetch.success 404 (Except.ok {}))
    "alice" "42" 50 trivial (Or.inr (Or.inl (by decide)))

/-- Extraction of a first maximum fails exactly on the empty list. -/
theorem extractFirstMax_eq_none {α : Type} (key : α → Int) (l : List α) :
    extractFirstMax key l = none ↔ l = [] := by
  cases l with
  | nil => simp [extractFirstMax]
  | cons x xs =>
      simp only [extractFirstMax]
      cases hx : extractFirstMax key xs with
      | none => simp
      | some mr =>
          by_cases hk : key x < key mr.1
          · simp [hk]
          · simp [hk]

/-- Removing the first maximum commutes with the stable descending sort:
the sort of a list is its first maximum followed by the sort of the rest. -/
theorem sortDesc_extract {α : Type} (key : α → Int) :
    ∀ (l : List α) (m : α) (rest : List α),
      extractFirstMax key l = some (m, rest) → sortDesc key l = m :: sortDesc key rest := by
  intro l
  induction l with
  | nil => intro m rest h; simp [extractFirstMax] at h
  | cons x xs ih =>
      intro m rest h
      simp only [extractFirstMax] at h
      cases hx : extractFirstMax key xs with
      | none =>
          rw [hx] at h
          have hxs : xs = [] := (extractFirstMax_eq_none key xs).mp hx
          subst hxs
          simp only [Option.some.injEq, Prod.mk.injEq] at h
          obtain ⟨hm, hr⟩ := h
          subst hm; subst hr
          simp [sortDesc, insertDesc]
      | some mr =>
          rw [hx] at h
          obtain ⟨m2, r2⟩ := mr
          dsimp only at h
          have ih2 := ih m2 r2 hx
          by_cases hlt : key x < key m2
          · rw [if_pos hlt] at h
            simp only [Option.some.injEq, Prod.mk.injEq] at h
            obtain ⟨hm, hr⟩ := h
            rw [← hm, ← hr]
            simp only [sortDesc]
            rw [ih2]
            simp only [insertDesc]
            rw [if_neg (not_le.mpr hlt)]
          · rw [if_neg hlt] at h
            simp only [Option.some.injEq, Prod.mk.injEq] at h
            obtain ⟨hm, hr⟩ := h
            rw [← hm, ← hr]
            simp only [sortDesc]
            rw [ih2]
            simp only [insertDesc]
            rw [if_pos (not_lt.mp hlt)]

/-- The nlargest selection equals the stable descending sort truncated to
the requested length: ranking is by the key alone with ties kept in input
order. -/
theorem nlargest_eq_sortDesc_take {α : Type} (key : α → Int) :
    ∀ (n : Nat) (l : List α), nlargest key n l = (sortDesc key l).take n := by
  intro n
  induction n with
  | zero => intro l; rfl
  | succ n ih =>
      intro l
      cases l with
      | nil => rfl
      | cons x xs =>
          cases he : extractFirstMax key (x :: xs) with
          | none =>
              have : x :: xs = [] := (extractFirstMax_eq_none key (x :: xs)).mp he
              exact absurd this (List.cons_ne_nil x xs)
          | some mr =>
              obtain ⟨m, rest⟩ := mr
              have h1 : nlargest key (n + 1) (x :: xs) = m :: nlargest key n rest := by
                simp only [nlargest]
                rw [he]
              rw [h1, sortDesc_extract key (x :: xs) m rest he, List.take_succ_cons, ih rest]

/-- Claim C1 counterexample: on the spec batch with engagements 30, 30
and 10 in input order, the top ranking of the code does not agree with
the stable top-by-engagement ranking the claim describes. -/
theorem top_ranking_not_by_engagement :
    top_likes 1 engBatch ≠ specTopByEngagement 1 engBatch := by
  decide

/-- Claim C1 amended: the two top-post rankings select the n largest by
like count alone, respectively by comment count alone, each equal to a
stable descending sort truncated to n, so ties keep input order; on like
counts 30, 30 and 10 with n equal to 1 the first tied post is returned. -/
theorem top_ranking_stable_by_likes :
    (∀ (n : Nat) (posts : List Post),
        top_likes n posts = (sortDesc (fun p => p.likes) posts).take n)
    ∧ (∀ (n : Nat) (posts : List Post),
        top_comments n posts = (sortDesc (fun p => p.comments) posts).take n)
    ∧ top_likes 1 tieBatch = [{ basePost with likes := 30 }] := by
  refine ⟨?_, ?_, ?_⟩
  · intro n posts
    exact nlargest_eq_sortDesc_take (fun p => p.likes) n posts
  · intro n posts
    exact nlargest_eq_sortDesc_take (fun p => p.comments) n posts
  · decide

/-- Claim C6: normalization is total, keeps the batch size at the input
length truncated to the cap, preserves input order item by item, and
maps an item missing every optional field to the documented defaults. -/
theorem normalization_total_spec :
    (∀ (items : List RawItem) (maxPosts : Nat),
        (normalizeBatch items maxPosts).length = min maxPosts items.length)
    ∧ (∀ (items : List RawItem) (maxPosts i : Nat),
        (normalizeBatch items maxPosts)[i]? = ((items.take maxPosts)[i]?).map normalizeItem)
    ∧ normalizeItem {} =
        { post_id := none, shortcode := none, timestamp := 0, type := "photo"
        , likes := 0, comments := 0, caption := "", display_url := "", thumbnail_url := ""
        , is_video := false, video_view_count := 0 } := by
  refine ⟨?_, ?_, ?_⟩
  · intro items maxPosts
    simp [normalizeBatch]
  · intro items maxPosts i
    simp only [normalizeBatch, List.getElem?_map]
  · decide

/-- Taking at least the whole length of a string changes nothing. -/
theorem strTake_of_le (s : String) (n : Nat) (h : s.data.length ≤ n) : strTake n s = s := by
  cases s with
  | mk l => simp only [strTake]; rw [List.take_of_length_le h]

/-- Claim C8 counterexample: for a caption of 101 characters the stored
caption of the normalized post differs from the full text, so the full
length form is not obtainable from the stored record. -/
theorem caption_full_not_stored : (normalizeItem longItem).caption ≠ longCaption := by
  decide

/-- Claim C8 amended: the stored caption of a normalized post is the
caption text truncated to its first 100 characters, not the full text;
the two agree exactly when the caption has at most 100 characters. -/
theorem caption_stored_truncated :
    ∀ (item : RawItem) (cnode : RawCaption), item.caption = some cnode →
      (normalizeItem item).caption = strTake 100 (cnode.text.getD "")
      ∧ ((cnode.text.getD "").data.length ≤ 100 →
          (normalizeItem item).caption = cnode.text.getD "") := by
  intro item cnode h
  constructor
  · simp [normalizeItem, h]
  · intro hle
    simp [normalizeItem, h, strTake_of_le _ _ hle]

/-- Witness for claim C8 at a two-character caption. -/
theorem caption_stored_truncated_witness :
    (normalizeItem hiItem).caption = hiCaption.text.getD "" :=
  (caption_stored_truncated hiItem hiCaption rfl).2 (by decide)

/-- Insertion into a sorted list is a permutation of consing. -/
theorem perm_insertAscBy {α : Type} (lt : α → α → Bool) (x : α) :
    ∀ l : List α, (insertAscBy lt x l).Perm (x :: l) := by
  intro l
  induction l with
  | nil => simp [insertAscBy]
  | cons y ys ih =>
      by_cases h : lt x y = true
      · simp [insertAscBy, h]
      · have h2 : lt x y = false := by
          cases hh : lt x y with
          | true => exact absurd hh h
          | false => rfl
        simp only [insertAscBy, h2, Bool.false_eq_true, if_false]
        exact (ih.cons y).trans (List.Perm.swap x y ys)

/-- The ascending insertion sort permutes its input. -/
theorem perm_sortAscBy {α : Type} (lt : α → α → Bool) :
    ∀ l : List α, (sortAscBy lt l).Perm l := by
  intro l
  induction l with
  | nil => simp [sortAscBy]
  | cons x xs ih =>
      exact (perm_insertAscBy lt x (sortAscBy lt xs)).trans (ih.cons x)

/-- Membership in the deduplicated list: present in the input and not
among the already seen values. -/
theorem mem_dedupAux {α : Type} [DecidableEq α] (a : α) :
    ∀ (l seen : List α), a ∈ dedupAux seen l ↔ a ∈ l ∧ a ∉ seen := by
  intro l
  induction l with
  | nil =>
      intro seen
      simp [dedupAux]
  | cons x xs ih =>
      intro seen
      by_cases hx : x ∈ seen
      · rw [show dedupAux seen (x :: xs) = dedupAux seen xs from by simp [dedupAux, hx]]
        rw [ih seen]
        constructor
        · rintro ⟨h1, h2⟩
          exact ⟨List.mem_cons_of_mem x h1, h2⟩
        · rintro ⟨h1, h2⟩
          rcases List.mem_cons.mp h1 with h3 | h3
          · subst h3
            exact absurd hx h2
          · exact ⟨h3, h2⟩
      · rw [show dedupAux seen (x :: xs) = x :: dedupAux (x :: seen) xs from by simp [dedupAux, hx]]
        constructor
        · intro h1
          rcases List.mem_cons.mp h1 with h3 | h3
          · subst h3
            exact ⟨List.mem_cons_self _ _, hx⟩
          · obtain ⟨h4, h5⟩ := (ih (x :: seen)).mp h3
            refine ⟨List.mem_cons_of_mem x h4, ?_⟩
            intro h6
            exact h5 (List.mem_cons_of_mem x h6)
        · rintro ⟨h1, h2⟩
          rcases List.mem_cons.mp h1 with h3 | h3
          · subst h3
            exact List.mem_cons_self _ _
          · by_cases hax : a = x
            · subst hax
              exact List.mem_cons_self _ _
            · refine List.mem_cons_of_mem x ((ih (x :: seen)).mpr ⟨h3, ?_⟩)
              intro h6
              rcases List.mem_cons.mp h6 with h7 | h7
              · exact hax h7
              · exact h2 h7

/-- The deduplicated list has no duplicates. -/
theorem nodup_dedupAux {α : Type} [DecidableEq α] :
    ∀ (l seen : List α), (dedupAux seen l).Nodup := by
  intro l
  induction l with
  | nil => intro seen; simp [dedupAux]
  | cons x xs ih =>
      intro seen
      by_cases hx : x ∈ seen
      · rw [show dedupAux seen (x :: xs) = dedupAux seen xs from by simp [dedupAux, hx]]
        exact ih seen
      · rw [show dedupAux seen (x :: xs) = x :: dedupAux (x :: seen) xs from by simp [dedupAux, hx]]
        refine List.nodup_cons.mpr ⟨?_, ih (x :: seen)⟩
        intro hmem
        exact ((mem_dedupAux x xs (x :: seen)).mp hmem).2 (List.mem_cons_self x seen)

/-- Inserting into an ascending integer list keeps it ascending. -/
theorem pairwise_insertAsc_int (x : Int) :
    ∀ l : List Int, l.Pairwise (· ≤ ·) → (insertAscBy intLtB x l).Pairwise (· ≤ ·) := by
  intro l
  induction l with
  | nil => intro h; simp [insertAscBy]
  | cons y ys ih =>
      intro h
      by_cases hlt : intLtB x y = true
      · have hxy : x < y := of_decide_eq_true hlt
        simp only [insertAscBy, hlt, if_pos]
        refine List.Pairwise.cons ?_ h
        intro z hz
        rcases List.mem_cons.mp hz with h2 | h2
        · exact le_of_lt (h2 ▸ hxy)
        · exact le_of_lt (lt_of_lt_of_le hxy (List.rel_of_pairwise_cons h h2))
      · have h2 : intLtB x y = false := by
          cases hh : intLtB x y with
          | true => exact absurd hh hlt
          | false => rfl
        have hyx : y ≤ x := not_lt.mp (of_decide_eq_false h2)
        simp only [insertAscBy, h2, Bool.false_eq_true, if_false]
        refine List.Pairwise.cons ?_ (ih h.of_cons)
        intro z hz
        have hz2 := (perm_insertAscBy intLtB x ys).mem_iff.mp hz
        rcases List.mem_cons.mp hz2 with h3 | h3
        · exact h3 ▸ hyx
        · exact List.rel_of_pairwise_cons h h3

/-- The ascending integer sort is ascending. -/
theorem pairwise_sortAsc_int : ∀ l : List Int, (sortAscBy intLtB l).Pairwise (· ≤ ·) := by
  intro l
  induction l with
  | nil => simp [sortAscBy]
  | cons x xs ih => exact pairwise_insertAsc_int x (sortAscBy intLtB xs) ih

/-- Sums of natural mappings split pointwise. -/
theorem sum_map_add_nat {α : Type} (f g : α → Nat) :
    ∀ l : List α, (l.map (fun x => f x + g x)).sum = (l.map f).sum + (l.map g).sum := by
  intro l
  induction l with
  | nil => rfl
  | cons x xs ih => simp [ih]; omega

/-- The sum of a constantly zero mapping vanishes. -/
theorem sum_map_zero_nat {α : Type} : ∀ l : List α, (l.map (fun _ => (0 : Nat))).sum = 0 := by
  intro l
  induction l with
  | nil => rfl
  | cons x xs ih => simp [ih]

/-- Indicator sum over a list not containing the value is zero. -/
theorem sum_indicator_zero (x : Int) :
    ∀ ds : List Int, x ∉ ds → (ds.map (fun d => if x == d then (1 : Nat) else 0)).sum = 0 := by
  intro ds
  induction ds with
  | nil => intro h; rfl
  | cons d rest ih =>
      intro h
      have h1 : ¬ x = d := fun hh => h (hh ▸ List.mem_cons_self d rest)
      have h2 : x ∉ rest := fun hh => h (List.mem_cons_of_mem d hh)
      have hbeq : (x == d) = false := beq_eq_false_iff_ne.mpr h1
      rw [List.map_cons, List.sum_cons, hbeq, if_neg Bool.false_ne_true, ih h2]

/-- Indicator sum over a duplicate-free list containing the value is one. -/
theorem sum_indicator_one (x : Int) :
    ∀ ds : List Int, ds.Nodup → x ∈ ds →
      (ds.map (fun d => if x == d then (1 : Nat) else 0)).sum = 1 := by
  intro ds
  induction ds with
  | nil => intro _ h; exact absurd h (List.not_mem_nil x)
  | cons d rest ih =>
      intro hnd hmem
      rcases List.nodup_cons.mp hnd with ⟨hd, hnd2⟩
      by_cases hxd : x = d
      · subst hxd
        rw [List.map_cons, List.sum_cons, beq_self_eq_true, if_pos rfl,
          sum_indicator_zero x rest hd]
      · rcases List.mem_cons.mp hmem with h1 | h1
        · exact absurd h1 hxd
        · have hbeq : (x == d) = false := beq_eq_false_iff_ne.mpr hxd
          rw [List.map_cons, List.sum_cons, hbeq, if_neg Bool.false_ne_true, ih hnd2 h1]

/-- Length of a filtered cons splits on the head. -/
theorem filter_cons_length (f : Post → Bool) (p : Post) (ps : List Post) :
    (List.filter f (p :: ps)).length = (if f p then 1 else 0) + (List.filter f ps).length := by
  rw [List.filter_cons]
  by_cases h : f p = true
  · rw [if_pos h, if_pos h, List.length_cons]
    omega
  · rw [if_neg h, if_neg h]
    omega

/-- Grouped counts over duplicate-free covering group keys partition the
filtered batch: their sum is the total count of matching posts. -/
theorem sum_group_counts (key : Post → Int) (g : Post → Bool) :
    ∀ (posts : List Post) (ds : List Int), ds.Nodup →
      (∀ p, p ∈ posts → g p = true → key p ∈ ds) →
      (ds.map (fun d => (posts.filter (fun p => key p == d && g p)).length)).sum
        = (posts.filter g).length := by
  intro posts
  induction posts with
  | nil =>
      intro ds _ _
      simp only [List.filter_nil, List.length_nil]
      exact sum_map_zero_nat ds
  | cons p ps ih =>
      intro ds hnd hcov
      have hcov2 : ∀ q, q ∈ ps → g q = true → key q ∈ ds :=
        fun q hq => hcov q (List.mem_cons_of_mem p hq)
      simp only [filter_cons_length]
      rw [sum_map_add_nat (fun d => if (key p == d && g p) = true then 1 else 0)
            (fun d => (ps.filter (fun q => key q == d && g q)).length) ds]
      rw [ih ds hnd hcov2]
      by_cases hg : g p = true
      · have hk : key p ∈ ds := hcov p (List.mem_cons_self p ps) hg
        have : (ds.map (fun d => if (key p == d && g p) = true then 1 else 0)).sum = 1 := by
          have heq : (fun d => if (key p == d && g p) = true then (1 : Nat) else 0)
              = fun d => if key p == d then (1 : Nat) else 0 := by
            funext d
            rw [hg, Bool.and_true]
          rw [heq]
          exact sum_indicator_one (key p) ds hnd hk
        rw [this, hg]
        simp
      · have hg2 : g p = false := by
          cases hh : g p with
          | true => exact absurd hh hg
          | false => rfl
        have : (ds.map (fun d => if (key p == d && g p) = true then 1 else 0)).sum = 0 := by
          have heq : (fun d => if (key p == d && g p) = true then (1 : Nat) else 0)
              = fun d => (0 : Nat) := by
            funext d
            rw [hg2, Bool.and_false]
            simp
          rw [heq]
          exact sum_map_zero_nat ds
        rw [this, hg2]
        simp

/-- Unfolding of the time series on a nonempty batch. -/
theorem generate_time_series_cons (dateOf : Int → Int) (q : Post) (qs : List Post) :
    generate_time_series_data dateOf (q :: qs)
      = (sortAscBy intLtB (dedupAux [] ((q :: qs).map (postDate dateOf)))).map
          (dailyRow dateOf (q :: qs)) := rfl

/-- The sorted deduplicated date keys of a batch have no duplicates. -/
theorem dateKeys_nodup (dateOf : Int → Int) (posts : List Post) :
    (sortAscBy intLtB (dedupAux [] (posts.map (postDate dateOf)))).Nodup :=
  ((perm_sortAscBy intLtB _).nodup_iff).mpr (nodup_dedupAux _ [])

/-- Every date occurring in the batch occurs among the date keys. -/
theorem dateKeys_cover (dateOf : Int → Int) (posts : List Post) :
    ∀ p, p ∈ posts → postDate dateOf p ∈ sortAscBy intLtB (dedupAux [] (posts.map (postDate dateOf))) := by
  intro p hp
  have hm : postDate dateOf p ∈ posts.map (postDate dateOf) := List.mem_map_of_mem _ hp
  have hd : postDate dateOf p ∈ dedupAux [] (posts.map (postDate dateOf)) :=
    (mem_dedupAux _ _ _).mpr ⟨hm, List.not_mem_nil _⟩
  exact ((perm_sortAscBy intLtB _).mem_iff).mpr hd

/-- Claim C9 counterexample: a batch holding one post without a post id
has daily post counts summing to zero, not to the batch length. -/
theorem daily_count_misses_null_id :
    ((generate_time_series_data (fun t => t) [noIdPost]).map (fun s => s.posts_count)).sum
      ≠ [noIdPost].length := by
  decide

/-- Claim C9 amended: the daily aggregates operation groups posts by the
calendar date of their timestamp, sums likes and comments per group and
returns rows in ascending date order, and the empty batch yields an
empty result; the per-day post counts sum to the number of posts whose
post id is non-null, which equals the batch size exactly when every post
carries an id. -/
theorem daily_aggregates_spec :
    (∀ dateOf : Int → Int, generate_time_series_data dateOf [] = [])
    ∧ (∀ (dateOf : Int → Int) (posts : List Post),
        ((generate_time_series_data dateOf posts).map (fun s => s.date)).Pairwise (· ≤ ·))
    ∧ (∀ (dateOf : Int → Int) (posts : List Post),
        ((generate_time_series_data dateOf posts).map (fun s => s.posts_count)).sum
          = (posts.filter (fun p => p.post_id.isSome)).length)
    ∧ (∀ (dateOf : Int → Int) (posts : List Post) (s : DailyStat),
        s ∈ generate_time_series_data dateOf posts →
          s.likes = ((posts.filter (fun p => postDate dateOf p == s.date)).map (fun p => p.likes)).sum
          ∧ s.comments = ((posts.filter (fun p => postDate dateOf p == s.date)).map (fun p => p.comments)).sum) := by
  refine ⟨fun dateOf => rfl, ?_, ?_, ?_⟩
  · intro dateOf posts
    cases posts with
    | nil => simp [generate_time_series_data]
    | cons q qs =>
        rw [generate_time_series_cons, List.map_map]
        have hcomp : ((fun s => s.date) ∘ dailyRow dateOf (q :: qs)) = fun d => d := rfl
        rw [hcomp, List.map_id']
        exact pairwise_sortAsc_int _
  · intro dateOf posts
    cases posts with
    | nil => simp [generate_time_series_data]
    | cons q qs =>
        rw [generate_time_series_cons, List.map_map]
        have hcomp : ((fun s => s.posts_count) ∘ dailyRow dateOf (q :: qs))
            = fun d => ((q :: qs).filter
                (fun p => postDate dateOf p == d && p.post_id.isSome)).length := rfl
        rw [hcomp]
        exact sum_group_counts (postDate dateOf) (fun p => p.post_id.isSome) (q :: qs) _
          (dateKeys_nodup dateOf (q :: qs)) (fun p hp _ => dateKeys_cover dateOf (q :: qs) p hp)
  · intro dateOf posts s hs
    cases posts with
    | nil => simp [generate_time_series_data] at hs
    | cons q qs =>
        rw [generate_time_series_cons] at hs
        obtain ⟨d, hd, heq⟩ := List.mem_map.mp hs
        constructor
        · rw [← heq]; rfl
        · rw [← heq]; rfl

/-- Witness for claim C9: the per-row sums of the single-post batch. -/
theorem daily_aggregates_spec_witness :
    soleStat.likes = (([solePost].filter (fun p => postDate (fun t => t) p == soleStat.date)).map
        (fun p => p.likes)).sum
    ∧ soleStat.comments = (([solePost].filter (fun p => postDate (fun t => t) p == soleStat.date)).map
        (fun p => p.comments)).sum :=
  daily_aggregates_spec.2.2.2 (fun t => t) [solePost] soleStat (by decide)

/-- A duplicate-free list over a two-element universe is one of five
explicit lists. -/
theorem two_kinds_cases {α : Type} [DecidableEq α] (A B : α) :
    ∀ l : List α, l.Nodup → (∀ x, x ∈ l → x = A ∨ x = B) →
      l = [] ∨ l = [A] ∨ l = [B] ∨ l = [A, B] ∨ l = [B, A] := by
  intro l hnd hall
  rcases l with _ | ⟨x, _ | ⟨y, rest⟩⟩
  · exact Or.inl rfl
  · rcases hall x (List.mem_cons_self _ _) with h | h
    · exact Or.inr (Or.inl (by rw [h]))
    · exact Or.inr (Or.inr (Or.inl (by rw [h])))
  · have h1 := List.nodup_cons.mp hnd
    have h2 := List.nodup_cons.mp h1.2
    have hxy : x ≠ y := fun hh => h1.1 (hh ▸ List.mem_cons_self _ _)
    have hrest : rest = [] := by
      cases rest with
      | nil => rfl
      | cons z zs =>
          exfalso
          have hz := hall z (by simp)
          have hx2 := hall x (by simp)
          have hy2 := hall y (by simp)
          have hzx : z ≠ x := by
            intro hh
            apply h1.1
            rw [← hh]
            simp
          have hzy : z ≠ y := by
            intro hh
            apply h2.1
            rw [← hh]
            simp
          have hA : A = x ∨ A = y := by
            rcases hx2 with h3 | h3
            · exact Or.inl h3.symm
            · rcases hy2 with h4 | h4
              · exact Or.inr h4.symm
              · exact absurd (h3.trans h4.symm) hxy
          have hB : B = x ∨ B = y := by
            rcases hx2 with h3 | h3
            · rcases hy2 with h4 | h4
              · exact absurd (h3.trans h4.symm) hxy
              · exact Or.inr h4.symm
            · exact Or.inl h3.symm
          rcases hz with h5 | h5
          · rcases hA with h6 | h6
            · exact hzx (h5.trans h6)
            · exact hzy (h5.trans h6)
          · rcases hB with h6 | h6
            · exact hzx (h5.trans h6)
            · exact hzy (h5.trans h6)
    subst hrest
    rcases hall x (by simp) with hx | hx <;> rcases hall y (by simp) with hy | hy
    · exact absurd (hx.trans hy.symm) hxy
    · exact Or.inr (Or.inr (Or.inr (Or.inl (by rw [hx, hy]))))
    · exact Or.inr (Or.inr (Or.inr (Or.inr (by rw [hx, hy]))))
    · exact absurd (hx.trans hy.symm) hxy

/-- On a batch of photo and video posts the sorted group keys are one of
four explicit lists. -/
theorem postKinds_cases (posts : List Post)
    (h : ∀ p, p ∈ posts → p.type = "photo" ∨ p.type = "video") :
    postKinds posts = [] ∨ postKinds posts = ["photo"] ∨ postKinds posts = ["video"]
      ∨ postKinds posts = ["photo", "video"] := by
  have hnd : (dedupAux [] (posts.map (fun p => p.type))).Nodup := nodup_dedupAux _ []
  have hall : ∀ x, x ∈ dedupAux [] (posts.map (fun p => p.type)) → x = "photo" ∨ x = "video" := by
    intro x hx
    have hm := ((mem_dedupAux x _ _).mp hx).1
    obtain ⟨p, hp, hpt⟩ := List.mem_map.mp hm
    rw [← hpt]
    exact h p hp
  rcases two_kinds_cases "photo" "video" _ hnd hall with h0 | h0 | h0 | h0 | h0
  · left; unfold postKinds; rw [h0]; rfl
  · right; left; unfold postKinds; rw [h0]; rfl
  · right; right; left; unfold postKinds; rw [h0]; rfl
  · right; right; right; unfold postKinds; rw [h0]; decide
  · right; right; right; unfold postKinds; rw [h0]; decide

/-- A nonempty batch has at least one group key. -/
theorem postKinds_ne_nil (posts : List Post) (hne : posts ≠ []) : postKinds posts ≠ [] := by
  cases posts with
  | nil => exact absurd rfl hne
  | cons q qs =>
      intro hnil
      have hm : q.type ∈ dedupAux [] ((q :: qs).map (fun p => p.type)) :=
        (mem_dedupAux _ _ _).mpr
          ⟨List.mem_map_of_mem _ (List.mem_cons_self _ _), List.not_mem_nil _⟩
      have hm2 : q.type ∈ postKinds (q :: qs) := ((perm_sortAscBy strLtB _).mem_iff).mpr hm
      rw [hnil] at hm2
      exact List.not_mem_nil _ hm2

/-- Claim C10: on a nonempty batch of photo and video posts the best
performing type computation is deterministic: it returns a group key of
maximal mean likes, and among keys of equal maximal mean the one first in
the alphabetical order of the sorted group keys, photo before video. -/
theorem best_type_deterministic :
    ∀ posts : List Post, posts ≠ [] →
      (∀ p, p ∈ posts → p.type = "photo" ∨ p.type = "video") →
        ∃ k, best_type posts = some k
          ∧ k ∈ postKinds posts
          ∧ (∀ k2, k2 ∈ postKinds posts → meanLikes posts k2 ≤ meanLikes posts k)
          ∧ (∀ k2, k2 ∈ postKinds posts → meanLikes posts k2 = meanLikes posts k →
              strLtB k2 k = false) := by
  intro posts hne hall
  rcases postKinds_cases posts hall with hk | hk | hk | hk
  · exact absurd hk (postKinds_ne_nil posts hne)
  · refine ⟨"photo", ?_, ?_, ?_, ?_⟩
    · rw [show best_type posts = idxmaxQ ((postKinds posts).map (fun k => (k, meanLikes posts k)))
          from rfl, hk]
      rfl
    · rw [hk]; exact List.mem_cons_self _ _
    · intro k2 hk2
      rw [hk] at hk2
      rcases List.mem_cons.mp hk2 with h | h
      · rw [h]
      · exact absurd h (List.not_mem_nil k2)
    · intro k2 hk2 _
      rw [hk] at hk2
      rcases List.mem_cons.mp hk2 with h | h
      · rw [h]; decide
      · exact absurd h (List.not_mem_nil k2)
  · refine ⟨"video", ?_, ?_, ?_, ?_⟩
    · rw [show best_type posts = idxmaxQ ((postKinds posts).map (fun k => (k, meanLikes posts k)))
          from rfl, hk]
      rfl
    · rw [hk]; exact List.mem_cons_self _ _
    · intro k2 hk2
      rw [hk] at hk2
      rcases List.mem_cons.mp hk2 with h | h
      · rw [h]
      · exact absurd h (List.not_mem_nil k2)
    · intro k2 hk2 _
      rw [hk] at hk2
      rcases List.mem_cons.mp hk2 with h | h
      · rw [h]; decide
      · exact absurd h (List.not_mem_nil k2)
  · have hbt : best_type posts
        = some ((if meanLikes posts "photo" < meanLikes posts "video"
            then (("video" : String), meanLikes posts "video")
            else (("photo" : String), meanLikes posts "photo")).1) := by
      rw [show best_type posts = idxmaxQ ((postKinds posts).map (fun k => (k, meanLikes posts k)))
          from rfl, hk]
      rfl
    by_cases hlt : meanLikes posts "photo" < meanLikes posts "video"
    · rw [if_pos hlt] at hbt
      refine ⟨"video", hbt, ?_, ?_, ?_⟩
      · rw [hk]; exact List.mem_cons_of_mem _ (List.mem_cons_self _ _)
      · intro k2 hk2
        rw [hk] at hk2
        rcases List.mem_cons.mp hk2 with h | h
        · rw [h]; exact le_of_lt hlt
        · rcases List.mem_cons.mp h with h2 | h2
          · rw [h2]
          · exact absurd h2 (List.not_mem_nil k2)
      · intro k2 hk2 heq
        rw [hk] at hk2
        rcases List.mem_cons.mp hk2 with h | h
        · rw [h] at heq
          exact absurd heq (ne_of_lt hlt)
        · rcases List.mem_cons.mp h with h2 | h2
          · rw [h2]; decide
          · exact absurd h2 (List.not_mem_nil k2)
    · rw [if_neg hlt] at hbt
      refine ⟨"photo", hbt, ?_, ?_, ?_⟩
      · rw [hk]; exact List.mem_cons_self _ _
      · intro k2 hk2
        rw [hk] at hk2
        rcases List.mem_cons.mp hk2 with h | h
        · rw [h]
        · rcases List.mem_cons.mp h with h2 | h2
          · rw [h2]; exact not_lt.mp hlt
          · exact absurd h2 (List.not_mem_nil k2)
      · intro k2 hk2 _
        rw [hk] at hk2
        rcases List.mem_cons.mp hk2 with h | h
        · rw [h]; decide
        · rcases List.mem_cons.mp h with h2 | h2
          · rw [h2]; decide
          · exact absurd h2 (List.not_mem_nil k2)

/-- Witness for claim C10 on the single photo post batch. -/
theorem best_type_deterministic_witness :
    ∃ k, best_type [basePost] = some k
      ∧ k ∈ postKinds [basePost]
      ∧ (∀ k2, k2 ∈ postKinds [basePost] → meanLikes [basePost] k2 ≤ meanLikes [basePost] k)
      ∧ (∀ k2, k2 ∈ postKinds [basePost] → meanLikes [basePost] k2 = meanLikes [basePost] k →
          strLtB k2 k = false) :=
  best_type_deterministic [basePost] (by decide) (by decide)
